import Mathlib

/-!
Verification model of the block-I/O request layer and buffer cache
(drivers/block/ll_rw_blk.c, fs/buffer.c).

Conventions of the shallow embedding:
* C `int` fields become `Int`, unsigned sector/byte counts become `Nat`.
* Bit flags in `rq->flags` / `q->queue_flags` / BDI state become `Bool` fields
  (each flag lives in its own bit in the source, so this is faithful).
* Predicates defined in headers that are not part of this tree
  (`BIOVEC_VIRT_MERGEABLE`, `BIOVEC_PHYS_MERGEABLE`, `BIO_SEG_BOUNDARY`,
  `rq_mergeable`, `elv_may_queue`) are abstracted as boolean parameters or
  fields; every theorem quantifies over all their valuations.
* Functions that mutate state return the updated state.
-/

namespace BlockLayer

/-- Queue limits and merge state of a `request_queue` relevant to merging
(`max_sectors`, `max_phys_segments`, `max_hw_segments`, `max_segment_size`,
the `QUEUE_FLAG_CLUSTER` bit and the `last_merge` hint). -/
structure Queue where
  max_sectors : Nat
  max_phys_segments : Int
  max_hw_segments : Int
  max_segment_size : Nat
  cluster : Bool
  last_merge : Option Nat
  deriving Repr, DecidableEq

/-- The fields of a `bio` consumed by the merge logic: `bio_sectors(bio)`,
`bi_size`, and the (pre-counted, `BIO_SEG_VALID`) `bi_phys_segments` /
`bi_hw_segments` returned by `bio_phys_segments` / `bio_hw_segments`. -/
structure Bio where
  sectors : Nat
  bi_size : Nat
  phys_segs : Int
  hw_segs : Int
  deriving Repr, DecidableEq

/-- The fields of a `struct request` consumed by the merge logic.
`nomerge`, `special`, `waiting` mirror `REQ_NOMERGE`, `rq->special`,
`rq->waiting`; `mergeable` stands for the header macro `rq_mergeable(rq)`;
`dir` is `rq_data_dir(rq)`; `disk` identifies `rq->rq_disk`; `bios` is the
chain `rq->bio .. rq->biotail` (by bio id), with `bio_head`/`biotail` the
junction bios themselves. -/
structure Request where
  sector : Nat
  nr_sectors : Nat
  hard_nr_sectors : Nat
  nr_phys_segments : Int
  nr_hw_segments : Int
  nomerge : Bool
  special : Bool
  waiting : Bool
  mergeable : Bool
  dir : Bool
  disk : Nat
  bios : List Nat
  bio_head : Bio
  biotail : Bio
  deriving Repr, DecidableEq

/-- `ll_new_mergeable`: the new bio extends the current hardware segment, so
only the physical segment counter is checked and bumped. -/
def ll_new_mergeable (q : Queue) (req : Request) (bio : Bio) :
    Bool × Request × Queue :=
  if req.nr_phys_segments + bio.phys_segs > q.max_phys_segments then
    (false, { req with nomerge := true }, { q with last_merge := none })
  else
    (true,
     { req with nr_phys_segments := req.nr_phys_segments + bio.phys_segs },
     q)

/-- `ll_new_hw_segment`: the new bio starts a new hardware segment, so both
counters are checked and bumped. -/
def ll_new_hw_segment (q : Queue) (req : Request) (bio : Bio) :
    Bool × Request × Queue :=
  if req.nr_hw_segments + bio.hw_segs > q.max_hw_segments
      ∨ req.nr_phys_segments + bio.phys_segs > q.max_phys_segments then
    (false, { req with nomerge := true }, { q with last_merge := none })
  else
    (true,
     { req with
        nr_hw_segments := req.nr_hw_segments + bio.hw_segs,
        nr_phys_segments := req.nr_phys_segments + bio.phys_segs },
     q)

/-- `ll_back_merge_fn`.  `virt_mergeable` is the value of
`BIOVEC_VIRT_MERGEABLE(__BVEC_END(req->biotail), __BVEC_START(bio))`
(computed from addresses in the missing bio.h header). -/
def ll_back_merge_fn (q : Queue) (req : Request) (bio : Bio)
    (virt_mergeable : Bool) : Bool × Request × Queue :=
  if req.nr_sectors + bio.sectors > q.max_sectors then
    (false, { req with nomerge := true }, { q with last_merge := none })
  else if virt_mergeable then
    ll_new_mergeable q req bio
  else
    ll_new_hw_segment q req bio

/-- `ll_front_merge_fn`.  `virt_mergeable` is
`BIOVEC_VIRT_MERGEABLE(__BVEC_END(bio), __BVEC_START(req->bio))`. -/
def ll_front_merge_fn (q : Queue) (req : Request) (bio : Bio)
    (virt_mergeable : Bool) : Bool × Request × Queue :=
  if req.nr_sectors + bio.sectors > q.max_sectors then
    (false, { req with nomerge := true }, { q with last_merge := none })
  else if virt_mergeable then
    ll_new_mergeable q req bio
  else
    ll_new_hw_segment q req bio

/-- The overflow condition of a back or front merge: the resulting sector
count exceeds `max_sectors`, the combined physical segment count exceeds
`max_phys_segments`, or — when the junction does not extend the current
hardware segment — the combined hardware segment count exceeds
`max_hw_segments` (when the junction is virtually mergeable the merged
request keeps its hardware segment count, so no hw bound can be exceeded). -/
def merge_exceeds (q : Queue) (req : Request) (bio : Bio) (vm : Bool) : Prop :=
  req.nr_sectors + bio.sectors > q.max_sectors
  ∨ req.nr_phys_segments + bio.phys_segs > q.max_phys_segments
  ∨ (vm = false ∧ req.nr_hw_segments + bio.hw_segs > q.max_hw_segments)

instance (q : Queue) (req : Request) (bio : Bio) (vm : Bool) :
    Decidable (merge_exceeds q req bio vm) := by
  unfold merge_exceeds; infer_instance

/-- States that the merge attempt `r` (result, request, queue) left the
request's sector range and segment counts unchanged and cleared the queue's
merge hint. -/
def rejected_unchanged (req : Request) (r : Bool × Request × Queue) : Prop :=
  r.2.1.sector = req.sector ∧ r.2.1.nr_sectors = req.nr_sectors
  ∧ r.2.1.nr_phys_segments = req.nr_phys_segments
  ∧ r.2.1.nr_hw_segments = req.nr_hw_segments
  ∧ r.2.2.last_merge = none

/-! ### Request coalescing (`attempt_merge`, `ll_merge_requests_fn`) -/

/-- `blk_phys_contig_segment`: may the tail bio of one request and the head
bio of the next form a single physical segment?  `phys_mergeable` and
`seg_boundary` are the values of the header macros `BIOVEC_PHYS_MERGEABLE`
and `BIO_SEG_BOUNDARY` at this junction. -/
def blk_phys_contig_segment (q : Queue) (phys_mergeable seg_boundary : Bool)
    (b1 b2 : Bio) : Bool :=
  if ¬q.cluster then false
  else if ¬phys_mergeable then false
  else if b1.bi_size + b2.bi_size > q.max_segment_size then false
  else seg_boundary

/-- `blk_hw_contig_segment`: same for one hardware segment;
`virt_mergeable` is `BIOVEC_VIRT_MERGEABLE` at the junction. -/
def blk_hw_contig_segment (q : Queue) (virt_mergeable seg_boundary : Bool)
    (b1 b2 : Bio) : Bool :=
  if ¬q.cluster then false
  else if ¬virt_mergeable then false
  else if b1.bi_size + b2.bi_size > q.max_segment_size then false
  else seg_boundary

/-- The physical segment count the coalesced request would have
(`total_phys_segments` in `ll_merge_requests_fn`). -/
def combined_phys_segments (q : Queue) (pm sb : Bool) (req next : Request) :
    Int :=
  req.nr_phys_segments + next.nr_phys_segments
  - (if blk_phys_contig_segment q pm sb req.biotail next.bio_head then 1 else 0)

/-- The hardware segment count the coalesced request would have
(`total_hw_segments` in `ll_merge_requests_fn`). -/
def combined_hw_segments (q : Queue) (vm sb : Bool) (req next : Request) :
    Int :=
  req.nr_hw_segments + next.nr_hw_segments
  - (if blk_hw_contig_segment q vm sb req.biotail next.bio_head then 1 else 0)

/-- `ll_merge_requests_fn`: decide whether two requests may coalesce and, if
so, return the updated segment counters that the function writes into `req`. -/
def ll_merge_requests_fn (q : Queue) (pm vm sb : Bool) (req next : Request) :
    Option (Int × Int) :=
  if req.special ∨ next.special then none
  else if req.nr_sectors + next.nr_sectors > q.max_sectors then none
  else if combined_phys_segments q pm sb req next > q.max_phys_segments then
    none
  else if combined_hw_segments q vm sb req next > q.max_hw_segments then none
  else some (combined_phys_segments q pm sb req next,
             combined_hw_segments q vm sb req next)

/-- `attempt_merge`: coalesce `next` into `req`.  On success the single
surviving request is returned (the source then appends the bio chain, sets
`nr_sectors = hard_nr_sectors += next->hard_nr_sectors` and releases `next`
outright via `__blk_put_request`); `none` models the 0 return where both
requests stay. -/
def attempt_merge (q : Queue) (pm vm sb : Bool) (req next : Request) :
    Option Request :=
  if ¬req.mergeable ∨ ¬next.mergeable then none
  else if req.sector + req.nr_sectors ≠ next.sector then none
  else if req.dir ≠ next.dir ∨ req.disk ≠ next.disk ∨ next.waiting
      ∨ next.special then none
  else
    match ll_merge_requests_fn q pm vm sb req next with
    | none => none
    | some (tp, th) =>
      some { req with
              nr_phys_segments := tp,
              nr_hw_segments := th,
              bios := req.bios ++ next.bios,
              biotail := next.biotail,
              nr_sectors := req.hard_nr_sectors + next.hard_nr_sectors,
              hard_nr_sectors := req.hard_nr_sectors + next.hard_nr_sectors }

/-! ### Request allocation accounting (`get_request`, `freed_request`,
congestion thresholds, io-context batching) -/

/-- Per-direction accounting state of one request queue: `nr_requests`,
`rl->count[rw]`, the direction's BDI congestion bit, the
`QUEUE_FLAG_READFULL`/`WRITEFULL` bit, and whether any allocator is blocked
on `rl->wait[rw]` (`waitqueue_active`). -/
structure RQState where
  nr_requests : Nat
  count : Nat
  congested : Bool
  full : Bool
  waiters : Bool
  deriving Repr, DecidableEq

/-- `queue_congestion_on_threshold`. -/
def queue_congestion_on_threshold (nr : Nat) : Nat :=
  let ret := nr - nr / 8 + 1
  if ret > nr then nr else ret

/-- `queue_congestion_off_threshold`. -/
def queue_congestion_off_threshold (nr : Nat) : Nat :=
  let ret := nr - nr / 8 - 1
  if ret < 1 then 1 else ret

/-- `set_queue_congested`. -/
def set_queue_congested (s : RQState) : RQState := { s with congested := true }

/-- `clear_queue_congested` (it additionally wakes the global
`congestion_wqh` waiters; per-direction allocator wakeups are handled in
`freed_request`). -/
def clear_queue_congested (s : RQState) : RQState :=
  { s with congested := false }

/-- Result of `freed_request`: the updated accounting state and whether
`wake_up(&rl->wait[rw])` fired. -/
structure FreedResult where
  state : RQState
  woke : Bool
  deriving Repr, DecidableEq

/-- `freed_request`. -/
def freed_request (s : RQState) : FreedResult :=
  let c := s.count - 1
  let s1 := { s with count := c }
  let s2 := if c < queue_congestion_off_threshold s.nr_requests then
      clear_queue_congested s1
    else s1
  if c + 1 ≤ s.nr_requests then
    if s.waiters then { state := s2, woke := true }
    else { state := { s2 with full := false }, woke := false }
  else { state := s2, woke := false }

/-- The batching fields of an `io_context`. -/
structure IoContext where
  nr_batch_requests : Int
  last_waited : Nat
  deriving Repr, DecidableEq

/-- `BLK_BATCH_REQ`. -/
def BLK_BATCH_REQ : Int := 32

/-- `ioc_batching`.  `batch_time` stands for `BLK_BATCH_TIME = HZ/50` (HZ
lives in a header outside this tree); `time_before(jiffies, t)` is
`jiffies < t`. -/
def ioc_batching (jiffies batch_time : Nat) : Option IoContext → Bool
  | none => false
  | some ioc =>
    (ioc.nr_batch_requests == BLK_BATCH_REQ)
    || (decide (0 < ioc.nr_batch_requests)
        && decide (jiffies < ioc.last_waited + batch_time))

/-- `ioc_set_batching`. -/
def ioc_set_batching (jiffies batch_time : Nat) (ioc : Option IoContext) :
    Option IoContext :=
  match ioc with
  | none => none
  | some i =>
    if ioc_batching jiffies batch_time (some i) then some i
    else some { nr_batch_requests := BLK_BATCH_REQ, last_waited := jiffies }

/-- The opening block of `get_request`: if the queue will fill after this
allocation, mark the process as batching and set the full flag. -/
def get_request_setfull (jiffies batch_time : Nat) (s : RQState)
    (ioc : Option IoContext) : RQState × Option IoContext :=
  if s.count + 1 ≥ s.nr_requests then
    if ¬s.full then
      ({ s with full := true }, ioc_set_batching jiffies batch_time ioc)
    else (s, ioc)
  else (s, ioc)

/-- Result of `get_request`: whether a request was produced, the accounting
state, the caller's io-context, and whether the failure path's
`freed_request` woke a blocked allocator. -/
structure GetResult where
  allocated : Bool
  state : RQState
  ioc : Option IoContext
  woke : Bool
  deriving Repr, DecidableEq

/-- `get_request`.  `elv_may_queue` abstracts the elevator's admission
override; `alloc_ok` is whether `blk_alloc_request` (mempool + elevator
private data) succeeds. -/
def get_request (jiffies batch_time : Nat) (elv_may_queue alloc_ok : Bool)
    (s : RQState) (ioc : Option IoContext) : GetResult :=
  let p := get_request_setfull jiffies batch_time s ioc
  let s1 := p.1
  let ioc1 := p.2
  if s1.full && !ioc_batching jiffies batch_time ioc1 && !elv_may_queue then
    { allocated := false, state := s1, ioc := ioc1, woke := false }
  else
    let s2 := { s1 with count := s1.count + 1 }
    let s3 := if s2.count ≥ queue_congestion_on_threshold s2.nr_requests then
        set_queue_congested s2
      else s2
    if ¬alloc_ok then
      let fr := freed_request s3
      { allocated := false, state := fr.state, ioc := ioc1, woke := fr.woke }
    else
      let ioc2 := if ioc_batching jiffies batch_time ioc1 then
          match ioc1 with
          | none => none
          | some i => some { i with nr_batch_requests := i.nr_batch_requests - 1 }
        else ioc1
      { allocated := true, state := s3, ioc := ioc2, woke := false }

/-- Repeated allocation: `true` iff `n` consecutive `get_request` calls (all
with memory available) all succeed. -/
def get_request_run (jiffies batch_time : Nat) (emq : Bool) :
    Nat → RQState → Option IoContext → Bool
  | 0, _, _ => true
  | n + 1, s, ioc =>
    let r := get_request jiffies batch_time emq true s ioc
    r.allocated && get_request_run jiffies batch_time emq n r.state r.ioc

/-! ### Concrete inputs used by witnesses and counterexamples -/

/-- A concrete queue at its limits, used to exercise the rejection path. -/
def q1 : Queue :=
  { max_sectors := 8, max_phys_segments := 2, max_hw_segments := 2,
    max_segment_size := 4096, cluster := true, last_merge := some 7 }

/-- A concrete one-bio request occupying 8 sectors and 2 segments. -/
def req1 : Request :=
  { sector := 0, nr_sectors := 8, hard_nr_sectors := 8,
    nr_phys_segments := 2, nr_hw_segments := 2, nomerge := false,
    special := false, waiting := false, mergeable := true, dir := false,
    disk := 0, bios := [0],
    bio_head := { sectors := 8, bi_size := 4096, phys_segs := 2, hw_segs := 2 },
    biotail := { sectors := 8, bi_size := 4096, phys_segs := 2, hw_segs := 2 } }

/-- A concrete one-sector bio. -/
def bio1 : Bio := { sectors := 1, bi_size := 512, phys_segs := 1, hw_segs := 1 }

/-- A roomy queue for the coalescing examples. -/
def q2 : Queue :=
  { max_sectors := 128, max_phys_segments := 16, max_hw_segments := 16,
    max_segment_size := 65536, cluster := false, last_merge := none }

/-- A mergeable request covering sectors [0, 8). -/
def reqA : Request :=
  { sector := 0, nr_sectors := 8, hard_nr_sectors := 8,
    nr_phys_segments := 1, nr_hw_segments := 1, nomerge := false,
    special := false, waiting := false, mergeable := true, dir := false,
    disk := 0, bios := [10],
    bio_head := { sectors := 8, bi_size := 4096, phys_segs := 1, hw_segs := 1 },
    biotail := { sectors := 8, bi_size := 4096, phys_segs := 1, hw_segs := 1 } }

/-- A sector-contiguous follower of `reqA` that carries `special` state
(a re-queued command), covering sectors [8, 16). -/
def reqB : Request :=
  { sector := 8, nr_sectors := 8, hard_nr_sectors := 8,
    nr_phys_segments := 1, nr_hw_segments := 1, nomerge := false,
    special := true, waiting := false, mergeable := true, dir := false,
    disk := 0, bios := [11],
    bio_head := { sectors := 8, bi_size := 4096, phys_segs := 1, hw_segs := 1 },
    biotail := { sectors := 8, bi_size := 4096, phys_segs := 1, hw_segs := 1 } }

/-- Like `reqB` but an ordinary (non-special) request. -/
def reqC : Request := { reqB with special := false }

/-- A queue direction at capacity and marked full. -/
def sFull : RQState :=
  { nr_requests := 128, count := 128, congested := true, full := true,
    waiters := false }

/-- A queue direction one step below the congestion-on threshold
(`nr_requests = 16`, on-threshold 15, off-threshold 13), not congested,
not full. -/
def sNearOn : RQState :=
  { nr_requests := 16, count := 14, congested := false, full := false,
    waiters := false }

/-! ### Tagged command queueing (`blk_queue_start_tag`, `blk_queue_end_tag`,
`blk_queue_invalidate_tags`).  `BLK_TAGS_PER_LONG = BITS_PER_LONG = 32`
(asm-i386/types.h).  The bitmap is a flat list of bits; the start-tag scan
walks it in 32-bit words exactly as the source does. -/

/-- The request fields the tag code touches: `rq->tag` (`-1` is `none`), the
`REQ_QUEUED` and `REQ_STARTED` flags, plus a stable identity standing for
the request's address (used for list removal). -/
structure TagReq where
  id : Nat
  tag : Option Nat
  queued : Bool
  started : Bool
  deriving Repr, DecidableEq

/-- A `blk_queue_tag` table: the bitmap (length `real_max_depth`), the
`tag_index` array (length `real depth`, request ids), the busy counter, the
usable depth and the busy list (most recently started first, as
`list_add` prepends). -/
structure TagState where
  tag_map : List Bool
  tag_index : List (Option Nat)
  busy : Nat
  max_depth : Nat
  busy_list : List TagReq
  deriving Repr, DecidableEq

/-- `init_tag_map` for an already-clamped depth (the source first clamps
`depth` to `2 * nr_requests`): `depth/32 + 1` words are allocated, all bits
cleared, and the bits from `depth` up to the word boundary are pre-set. -/
def init_tag_map (depth : Nat) : TagState :=
  { tag_map := List.replicate depth false
      ++ List.replicate ((depth / 32 + 1) * 32 - depth) true,
    tag_index := List.replicate depth none,
    busy := 0,
    max_depth := depth,
    busy_list := [] }

/-- Split a bitmap into its 32-bit words. -/
def chunk32 : List Bool → List (List Bool)
  | [] => []
  | a :: as => ((a :: as).take 32) :: chunk32 ((a :: as).drop 32)
  termination_by l => l.length
  decreasing_by simp; omega

/-- `ffz`: index of the first zero bit in a word. -/
def ffz (w : List Bool) : Nat := w.findIdx (fun b => !b)

/-- The bitmap scan of `blk_queue_start_tag`: skip words that are all ones,
bailing out once the word-aligned index passes `max_depth`; in the first
word with a zero bit take `ffz`. -/
def tag_scan (max_depth : Nat) : Nat → List (List Bool) → Option Nat
  | _, [] => none
  | base, w :: ws =>
    if w.all (fun b => b) then
      if base + 32 ≥ max_depth then none
      else tag_scan max_depth (base + 32) ws
    else some (base + ffz w)

/-- Result of `blk_queue_start_tag`: `fatal` is the `BUG()` on an
already-tagged request, `fail` the `return 1` when no tag is free below the
depth, `ok` carries the tag, the updated table and the updated request. -/
inductive StartTagResult where
  | fatal : StartTagResult
  | fail : StartTagResult
  | ok : Nat → TagState → TagReq → StartTagResult
  deriving Repr, DecidableEq

/-- `blk_queue_start_tag` (the source additionally removes the request from
the dispatch list via `blkdev_dequeue_request`, which lives outside this
state). -/
def blk_queue_start_tag (s : TagState) (rq : TagReq) : StartTagResult :=
  if rq.queued then .fatal
  else
    match tag_scan s.max_depth 0 (chunk32 s.tag_map) with
    | none => .fail
    | some t =>
      let rq2 := { rq with queued := true, tag := some t }
      .ok t
        { s with
            tag_map := s.tag_map.set t true,
            tag_index := s.tag_index.set t (some rq.id),
            busy := s.busy + 1,
            busy_list := rq2 :: s.busy_list }
        rq2

/-- Result of `blk_queue_end_tag`: `fatal` is the `BUG_ON(tag == -1)`;
otherwise the updated table and request. -/
inductive EndTagResult where
  | fatal : EndTagResult
  | res : TagState → TagReq → EndTagResult
  deriving Repr, DecidableEq

/-- The body of `blk_queue_end_tag` once `tag` is known: out-of-range tags
and already-clear bits are ignored with a diagnostic; otherwise the bit is
cleared, the request leaves the busy list, `REQ_QUEUED` and the tag are
reset, the index slot is emptied and the busy count drops. -/
def end_tag_core (s : TagState) (rq : TagReq) (t : Nat) : TagState × TagReq :=
  if t ≥ s.tag_map.length then (s, rq)
  else if s.tag_map.getD t false = false then (s, rq)
  else
    ({ s with
        tag_map := s.tag_map.set t false,
        tag_index := s.tag_index.set t none,
        busy := s.busy - 1,
        busy_list := s.busy_list.filter (fun r => r.id != rq.id) },
     { rq with queued := false, tag := none })

/-- `blk_queue_end_tag`. -/
def blk_queue_end_tag (s : TagState) (rq : TagReq) : EndTagResult :=
  match rq.tag with
  | none => .fatal
  | some t => .res (end_tag_core s rq t).1 (end_tag_core s rq t).2

/-- One iteration of `blk_queue_invalidate_tags`: a busy-list entry with no
tag is just unlinked and unmarked (diagnostic printk), otherwise its tag is
ended. -/
def invalidate_step (s : TagState) (rq : TagReq) : TagState × TagReq :=
  match rq.tag with
  | none =>
    ({ s with busy_list := s.busy_list.filter (fun r => r.id != rq.id) },
     { rq with queued := false })
  | some t => end_tag_core s rq t

/-- The `list_for_each_safe` walk of `blk_queue_invalidate_tags` over a
snapshot of the busy list (each iteration removes only the element it is
visiting, so the snapshot walk is faithful); every visited request has
`REQ_STARTED` cleared and is handed to
`__elv_add_request(q, rq, ELEVATOR_INSERT_BACK, 0)` — `acc` accumulates
these reinserted requests in insertion order. -/
def blk_queue_invalidate_tags_aux :
    TagState → List TagReq → List TagReq → TagState × List TagReq
  | s, [], acc => (s, acc)
  | s, rq :: rest, acc =>
    let p := invalidate_step s rq
    blk_queue_invalidate_tags_aux p.1 rest
      (acc ++ [{ p.2 with started := false }])

/-- `blk_queue_invalidate_tags`: returns the final table and the requests
reinserted through the elevator, in order. -/
def blk_queue_invalidate_tags (s : TagState) : TagState × List TagReq :=
  blk_queue_invalidate_tags_aux s s.busy_list []

/-- An untagged, unstarted request with identity `k`. -/
def freshTagReq (k : Nat) : TagReq :=
  { id := k, tag := none, queued := false, started := false }

/-- The request with identity `k` as it looks after receiving tag `k`. -/
def taggedTagReq (k : Nat) : TagReq :=
  { id := k, tag := some k, queued := true, started := false }

/-- Start tags for a batch of requests in order, collecting each call's
outcome (`none` for a failed or fatal start). -/
def start_tags : TagState → List TagReq → TagState × List (Option Nat)
  | s, [] => (s, [])
  | s, rq :: rest =>
    match blk_queue_start_tag s rq with
    | .ok t s2 _ =>
      let p := start_tags s2 rest
      (p.1, some t :: p.2)
    | _ =>
      let p := start_tags s rest
      (p.1, none :: p.2)

/-- End the tags of a batch of requests in order (fatal calls leave the
state unchanged). -/
def end_tags : TagState → List TagReq → TagState
  | s, [] => s
  | s, rq :: rest =>
    match blk_queue_end_tag s rq with
    | .res s2 _ => end_tags s2 rest
    | .fatal => end_tags s rest

/-- The table state after tags `0 .. k-1` of a depth-`depth` table have been
started (in order) on requests `0 .. k-1`. -/
def midTagState (depth k : Nat) : TagState :=
  { tag_map := List.replicate k true ++ List.replicate (depth - k) false
      ++ List.replicate ((depth / 32 + 1) * 32 - depth) true,
    tag_index := (List.range k).map (fun j => some j)
      ++ List.replicate (depth - k) none,
    busy := k,
    max_depth := depth,
    busy_list := ((List.range k).reverse).map taggedTagReq }

/-! ### Request release (`__blk_put_request`) -/

/-- The fields of a request consumed by `__blk_put_request`: its reference
count, whether it came from a request list (`req->rl`), and whether its
`queuelist` node is unlinked (`list_empty(&req->queuelist)`). -/
structure PutReq where
  ref_count : Int
  has_rl : Bool
  queuelist_empty : Bool
  deriving Repr, DecidableEq

/-- Outcome of `__blk_put_request`: early return on a null queue, early
return while references remain, the `BUG_ON(!list_empty(&req->queuelist))`,
or a completed release. -/
inductive PutResult where
  | noQueue : PutResult
  | stillRef : PutResult
  | fatal : PutResult
  | released : PutResult
  deriving Repr, DecidableEq

/-- `__blk_put_request` (the release path also notifies the elevator, frees
into the mempool and runs `freed_request`, modeled elsewhere). -/
def __blk_put_request (has_queue : Bool) (rq : PutReq) : PutResult :=
  if ¬has_queue then .noQueue
  else if rq.ref_count - 1 ≠ 0 then .stillRef
  else if rq.has_rl then
    if ¬rq.queuelist_empty then .fatal else .released
  else .released

end BlockLayer

namespace BufferCache

/-! ### Buffer-head state machine, fsync drain and the per-CPU LRU
(fs/buffer.c).  Asynchronous I/O completion is modeled sequentially: each
buffer carries an oracle stream `io_results`; a `wait_on_buffer` on a locked
buffer completes the pending I/O, drawing its success from the stream
(`end_buffer_write_sync` sets Uptodate on success and clears it, latching
the write-error flag, on failure, then unlocks). -/

/-- A buffer head: identity, the Dirty/Locked/Uptodate/write-error state
bits, and the completion oracle. -/
structure BH where
  id : Nat
  dirty : Bool
  locked : Bool
  uptodate : Bool
  write_io_error : Bool
  io_results : List Bool
  deriving Repr, DecidableEq

/-- `wait_on_buffer`: wait until unlocked; the pending I/O of a locked
buffer completes here. -/
def wait_on_buffer (b : BH) : BH :=
  if b.locked then
    { b with
        locked := false,
        uptodate := b.io_results.headD true,
        write_io_error := b.write_io_error || !(b.io_results.headD true),
        io_results := b.io_results.tail }
  else b

/-- `ll_rw_block(WRITE, 1, &bh)` on one buffer: skip if the lock is already
held (`test_set_buffer_locked`); otherwise lock it and, if
`test_clear_buffer_dirty` fires, submit the write (clearing Dirty); a clean
buffer is unlocked again. -/
def ll_rw_block_write (b : BH) : BH :=
  if b.locked then b
  else if b.dirty then { b with locked := true, dirty := false }
  else b

/-- Phase 1 of `fsync_buffers_list`: detach each entry; dirty-or-locked
buffers move to the private `tmp` list, and each dirty one is waited on
(so the write sees current contents) and rewritten.  The source prepends to
`tmp` and phase 2 consumes `tmp` from its tail, so the processing order is
the walk order kept here. -/
def fsync_phase1 : List BH → List BH
  | [] => []
  | b :: rest =>
    if b.dirty || b.locked then
      (if b.dirty then ll_rw_block_write (wait_on_buffer b) else b)
        :: fsync_phase1 rest
    else fsync_phase1 rest

/-- Phase 2: wait on everything on the private list; any buffer that ends
not uptodate records `-EIO`. -/
def fsync_phase2 : List BH → List BH × Bool
  | [] => ([], false)
  | b :: rest =>
    let b2 := wait_on_buffer b
    let p := fsync_phase2 rest
    (b2 :: p.1, (!b2.uptodate) || p.2)

/-- `osync_buffers_list` over a buffer list: wait on locked entries and
record `-EIO` for any that end not uptodate (the source restarts its scan
after each wait; with no concurrent insertion every entry is visited once,
and `fsync_buffers_list` reaches it with an emptied list). -/
def osync_buffers_list : List BH → Bool
  | [] => false
  | b :: rest =>
    (b.locked && !(wait_on_buffer b).uptodate) || osync_buffers_list rest

/-- The `EIO` errno value. -/
def eio_code : Int := 5

/-- `fsync_buffers_list`: returns the final states of the buffers that went
through the private list together with the call's error result (`err`
from phase 2 takes precedence over `err2` from the final osync pass, which
here runs over the emptied original list). -/
def fsync_buffers_list (l : List BH) : List BH × Int :=
  let p := fsync_phase2 (fsync_phase1 l)
  (p.1, if p.2 then -eio_code else if osync_buffers_list [] then -eio_code else 0)

/-- Whether this fsync call observes a successful final completion for a
given entry buffer: a dirty buffer's (re)write outcome, a merely locked
buffer's in-flight outcome, vacuously true for clean unlocked buffers. -/
def entry_write_ok (b : BH) : Bool :=
  if b.dirty then
    (if b.locked then b.io_results.tail.headD true
     else b.io_results.headD true)
  else if b.locked then b.io_results.headD true
  else true

/-- `test_set_buffer_dirty`: returns the old bit and sets it. -/
def test_set_buffer_dirty (b : BH) : Bool × BH :=
  (b.dirty, { b with dirty := true })

/-- `mark_buffer_dirty`: `buffer_error()` (a checked diagnostic, not an
abort) fires when the buffer is not uptodate; the dirty bit is then set
regardless, and the owning page is dirtied only on a false-to-true
transition.  Returns (buffer, warned, page_dirtied). -/
def mark_buffer_dirty (b : BH) : BH × Bool × Bool :=
  if b.dirty then (b, !b.uptodate, false)
  else
    let p := test_set_buffer_dirty b
    (p.2, !b.uptodate, !p.1)

/-- The buffer-ring walk of `__set_page_dirty_buffers`: uptodate buffers get
their dirty bit set, non-uptodate ones trigger `buffer_error()` and are left
alone.  Returns the updated ring and whether any `buffer_error` fired.  (The
page-level `TestSetPageDirty` bookkeeping is outside this model.) -/
def __set_page_dirty_buffers : List BH → List BH × Bool
  | [] => ([], false)
  | b :: rest =>
    let p := __set_page_dirty_buffers rest
    if b.uptodate then ({ b with dirty := true } :: p.1, p.2)
    else (b :: p.1, true)

/-! ### Per-CPU buffer LRU (`lookup_bh_lru`, `bh_lru_install`,
`__find_get_block`).  `BH_LRU_SIZE = 8`; slots hold buffer references or
NULL; a buffer's identity stands for its address. -/

/-- A cached buffer reference: identity plus the (device, block, size) key. -/
structure BhRef where
  id : Nat
  bdev : Nat
  block : Nat
  size : Nat
  deriving Repr, DecidableEq

/-- The hit test of `lookup_bh_lru`: non-NULL and all three key fields
match. -/
def lru_match (bdev block size : Nat) : Option BhRef → Bool
  | none => false
  | some bh => bh.bdev == bdev && bh.block == block && bh.size == size

/-- Find the first matching slot and remove it, keeping the others in
order (this is exactly the shift loop of `lookup_bh_lru`: entries before
the hit move down one slot). -/
def lru_extract (bdev block size : Nat) :
    List (Option BhRef) → Option (BhRef × List (Option BhRef))
  | [] => none
  | e :: rest =>
    if lru_match bdev block size e then
      (match e with
       | some bh => some (bh, rest)
       | none => none)
    else
      match lru_extract bdev block size rest with
      | none => none
      | some (bh, rest2) => some (bh, e :: rest2)

/-- `lookup_bh_lru`: a hit is promoted to slot 0 (its reference count is
additionally raised by `get_bh`, not tracked here); a miss leaves the array
alone. -/
def lookup_bh_lru (bdev block size : Nat) (l : List (Option BhRef)) :
    Option BhRef × List (Option BhRef) :=
  match lru_extract bdev block size l with
  | none => (none, l)
  | some (bh, rest) => (some bh, some bh :: rest)

/-- The copy loop of `bh_lru_install`: `out` counts filled output slots
(slot 0 already holds the installed buffer); entries equal to the installed
buffer are dropped and their LRU reference released (`__brelse`); an entry
arriving when the output is full becomes the evictee.  Returns
(kept entries, evictees, released duplicates). -/
def install_scan (bh : BhRef) :
    List (Option BhRef) → Nat →
      List (Option BhRef) × List (Option BhRef) × List BhRef
  | [], _ => ([], [], [])
  | e :: rest, out =>
    if e = some bh then
      let p := install_scan bh rest out
      (p.1, p.2.1, bh :: p.2.2)
    else if out ≥ 8 then
      let p := install_scan bh rest out
      (p.1, e :: p.2.1, p.2.2)
    else
      let p := install_scan bh rest (out + 1)
      (e :: p.1, p.2.1, p.2.2)

/-- `bh_lru_install`: nothing happens when the buffer already sits at
slot 0; otherwise a reference is taken (`get_bh`), the buffer goes to
slot 0, the old entries shift down with duplicates dropped, the output is
NULL-padded to 8 slots, and the entry pushed out (if any) has its reference
released.  Returns (new array, evictees, released duplicate references). -/
def bh_lru_install (bh : BhRef) (l : List (Option BhRef)) :
    List (Option BhRef) × List (Option BhRef) × List BhRef :=
  if l.headD none = some bh then (l, [], [])
  else
    let p := install_scan bh l 1
    ((some bh :: p.1) ++ List.replicate (8 - (some bh :: p.1).length) none,
     p.2.1, p.2.2)

/-- `__find_get_block`: try the per-CPU LRU; on a miss fall back to the
authoritative pagecache lookup `__find_get_block_slow` (abstracted as
`slow`), installing any buffer it finds.  Returns the result and the
updated LRU. -/
def __find_get_block (slow : Nat → Nat → Nat → Option BhRef)
    (bdev block size : Nat) (l : List (Option BhRef)) :
    Option BhRef × List (Option BhRef) :=
  match lookup_bh_lru bdev block size l with
  | (some bh, l2) => (some bh, l2)
  | (none, _) =>
    match slow bdev block size with
    | none => (none, l)
    | some bh => (some bh, (bh_lru_install bh l).1)

end BufferCache


namespace BlockLayer

/-- The front-merge model coincides with the back-merge model once the
junction mergeability is abstracted: both check `max_sectors` first and then
dispatch on the junction. -/
lemma front_merge_eq_back (q : Queue) (req : Request) (bio : Bio)
    (vm : Bool) : ll_front_merge_fn q req bio vm = ll_back_merge_fn q req bio vm :=
  rfl

/-- Case analysis of `ll_back_merge_fn`: rejection happens exactly on the
overflow condition, and a rejection leaves the request unchanged and clears
the hint. -/
lemma back_merge_cases (q : Queue) (req : Request) (bio : Bio) (vm : Bool) :
    ((ll_back_merge_fn q req bio vm).1 = false ↔ merge_exceeds q req bio vm)
    ∧ ((ll_back_merge_fn q req bio vm).1 = false →
        rejected_unchanged req (ll_back_merge_fn q req bio vm)) := by
  unfold ll_back_merge_fn ll_new_mergeable ll_new_hw_segment
  cases vm <;> split_ifs with h1 h2 h3 <;>
    simp_all [merge_exceeds, rejected_unchanged] <;> omega

end BlockLayer

/-- C1: a back- or front-merge fails exactly when the resulting sector count
would exceed `max_sectors`, the combined physical-segment count would exceed
`max_phys_segments`, or the combined hardware-segment count would exceed
`max_hw_segments`; on such a rejection the queue's last-merge hint is cleared
and the request's sector range and segment counts are unchanged. -/
theorem back_front_merge_reject_iff_limits
    (q : BlockLayer.Queue) (req : BlockLayer.Request) (bio : BlockLayer.Bio)
    (vm : Bool) :
    (((BlockLayer.ll_back_merge_fn q req bio vm).1 = false
        ↔ BlockLayer.merge_exceeds q req bio vm)
      ∧ ((BlockLayer.ll_back_merge_fn q req bio vm).1 = false →
          BlockLayer.rejected_unchanged req
            (BlockLayer.ll_back_merge_fn q req bio vm)))
    ∧ (((BlockLayer.ll_front_merge_fn q req bio vm).1 = false
        ↔ BlockLayer.merge_exceeds q req bio vm)
      ∧ ((BlockLayer.ll_front_merge_fn q req bio vm).1 = false →
          BlockLayer.rejected_unchanged req
            (BlockLayer.ll_front_merge_fn q req bio vm))) := by
  refine ⟨BlockLayer.back_merge_cases q req bio vm, ?_⟩
  rw [BlockLayer.front_merge_eq_back]
  exact BlockLayer.back_merge_cases q req bio vm

/-- Witness for C1: at the concrete limit-saturated input the rejection
condition holds and the merge is indeed rejected with state unchanged. -/
theorem back_front_merge_reject_iff_limits_witness :
    (BlockLayer.ll_back_merge_fn BlockLayer.q1 BlockLayer.req1
        BlockLayer.bio1 true).1 = false
    ∧ BlockLayer.rejected_unchanged BlockLayer.req1
        (BlockLayer.ll_back_merge_fn BlockLayer.q1 BlockLayer.req1
          BlockLayer.bio1 true) := by
  have h := back_front_merge_reject_iff_limits BlockLayer.q1 BlockLayer.req1
    BlockLayer.bio1 true
  have hex : BlockLayer.merge_exceeds BlockLayer.q1 BlockLayer.req1
      BlockLayer.bio1 true := by decide
  exact ⟨h.1.1.mpr hex, h.1.2 (h.1.1.mpr hex)⟩

/-- Counterexample to C2 as stated: `reqA` and `reqB` are on the same queue,
device and direction, sector-contiguous, and their combined sector and
segment counts fit `q2`'s limits, yet `attempt_merge` refuses to coalesce
them (because `reqB` is a re-queued `special` request), leaving two
requests. -/
theorem attempt_merge_fit_counterexample :
    BlockLayer.reqA.sector + BlockLayer.reqA.nr_sectors = BlockLayer.reqB.sector
    ∧ BlockLayer.reqA.dir = BlockLayer.reqB.dir
    ∧ BlockLayer.reqA.disk = BlockLayer.reqB.disk
    ∧ BlockLayer.reqA.nr_sectors + BlockLayer.reqB.nr_sectors
        ≤ BlockLayer.q2.max_sectors
    ∧ BlockLayer.combined_phys_segments BlockLayer.q2 false false
        BlockLayer.reqA BlockLayer.reqB ≤ BlockLayer.q2.max_phys_segments
    ∧ BlockLayer.combined_hw_segments BlockLayer.q2 false false
        BlockLayer.reqA BlockLayer.reqB ≤ BlockLayer.q2.max_hw_segments
    ∧ BlockLayer.attempt_merge BlockLayer.q2 false false false
        BlockLayer.reqA BlockLayer.reqB = none := by
  decide

/-- C2 (amended): for two *mergeable, non-special* requests on the same
queue, device and direction, where the second has no completion waiter and
both have `nr_sectors = hard_nr_sectors` (no partial completion), if they
are sector-contiguous and their combined sector and segment counts fit the
queue's limits, then `attempt_merge` leaves exactly one request whose sector
range is the union of the two (its `nr_sectors` is the sum, its bio chain
the concatenation) and whose segment counts do not exceed
`max_phys_segments` / `max_hw_segments`; the second request is released. -/
theorem attempt_merge_coalesces (q : BlockLayer.Queue) (pm vm sb : Bool)
    (req next : BlockLayer.Request)
    (hm1 : req.mergeable = true) (hm2 : next.mergeable = true)
    (hs1 : req.special = false) (hs2 : next.special = false)
    (hwt : next.waiting = false)
    (hh1 : req.hard_nr_sectors = req.nr_sectors)
    (hh2 : next.hard_nr_sectors = next.nr_sectors)
    (hcont : req.sector + req.nr_sectors = next.sector)
    (hdir : req.dir = next.dir) (hdisk : req.disk = next.disk)
    (hsec : req.nr_sectors + next.nr_sectors ≤ q.max_sectors)
    (hphys : BlockLayer.combined_phys_segments q pm sb req next
        ≤ q.max_phys_segments)
    (hhw : BlockLayer.combined_hw_segments q vm sb req next
        ≤ q.max_hw_segments) :
    ∃ r, BlockLayer.attempt_merge q pm vm sb req next = some r
      ∧ r.sector = req.sector
      ∧ r.nr_sectors = req.nr_sectors + next.nr_sectors
      ∧ r.bios = req.bios ++ next.bios
      ∧ r.nr_phys_segments ≤ q.max_phys_segments
      ∧ r.nr_hw_segments ≤ q.max_hw_segments := by
  unfold BlockLayer.attempt_merge BlockLayer.ll_merge_requests_fn
  have g1 : ¬(¬req.mergeable ∨ ¬next.mergeable) := by simp [hm1, hm2]
  rw [if_neg g1]
  have g2 : ¬(req.sector + req.nr_sectors ≠ next.sector) := by simp [hcont]
  rw [if_neg g2]
  have g3 : ¬(req.dir ≠ next.dir ∨ req.disk ≠ next.disk ∨ next.waiting
      ∨ next.special) := by simp [hdir, hdisk, hwt, hs2]
  rw [if_neg g3]
  have g4 : ¬(req.special ∨ next.special) := by simp [hs1, hs2]
  rw [if_neg g4]
  have g5 : ¬(req.nr_sectors + next.nr_sectors > q.max_sectors) := by omega
  rw [if_neg g5]
  have g6 : ¬(BlockLayer.combined_phys_segments q pm sb req next
      > q.max_phys_segments) := by omega
  rw [if_neg g6]
  have g7 : ¬(BlockLayer.combined_hw_segments q vm sb req next
      > q.max_hw_segments) := by omega
  rw [if_neg g7]
  refine ⟨_, rfl, rfl, ?_, rfl, hphys, hhw⟩
  show req.hard_nr_sectors + next.hard_nr_sectors
      = req.nr_sectors + next.nr_sectors
  rw [hh1, hh2]

/-- Witness for the amended C2: the non-special follower `reqC` does
coalesce with `reqA` into a single request covering sectors [0, 16). -/
theorem attempt_merge_coalesces_witness :
    ∃ r, BlockLayer.attempt_merge BlockLayer.q2 false false false
        BlockLayer.reqA BlockLayer.reqC = some r
      ∧ r.sector = BlockLayer.reqA.sector
      ∧ r.nr_sectors = BlockLayer.reqA.nr_sectors + BlockLayer.reqC.nr_sectors
      ∧ r.bios = BlockLayer.reqA.bios ++ BlockLayer.reqC.bios
      ∧ r.nr_phys_segments ≤ BlockLayer.q2.max_phys_segments
      ∧ r.nr_hw_segments ≤ BlockLayer.q2.max_hw_segments :=
  attempt_merge_coalesces BlockLayer.q2 false false false
    BlockLayer.reqA BlockLayer.reqC
    (by decide) (by decide) (by decide) (by decide) (by decide)
    (by decide) (by decide) (by decide) (by decide) (by decide)
    (by decide) (by decide) (by decide)

namespace BlockLayer

/-- A queue already marked full does not change state or io-context in the
opening block of `get_request`. -/
lemma get_request_setfull_of_full (j bt : Nat) (s : RQState)
    (ioc : Option IoContext) (h : s.full = true) :
    get_request_setfull j bt s ioc = (s, ioc) := by
  unfold get_request_setfull
  split_ifs <;> simp_all

/-- On a full queue, a batching io-context passes the admission gate and
(with memory available) obtains a request; the queue stays full and the
batch counter is decremented. -/
lemma get_request_batching_facts (j bt : Nat) (emq : Bool) (s : RQState)
    (i : IoContext) (hfull : s.full = true)
    (hb : ioc_batching j bt (some i) = true) :
    (get_request j bt emq true s (some i)).allocated = true
    ∧ (get_request j bt emq true s (some i)).state.full = true
    ∧ (get_request j bt emq true s (some i)).ioc
        = some { i with nr_batch_requests := i.nr_batch_requests - 1 } := by
  unfold get_request
  rw [get_request_setfull_of_full j bt s (some i) hfull]
  simp only [hfull, hb]
  simp [set_queue_congested]
  split_ifs <;> simp [set_queue_congested, hfull]

/-- The opening block of `get_request` never changes `nr_requests`. -/
lemma get_request_setfull_nr (j bt : Nat) (s : RQState)
    (ioc : Option IoContext) :
    (get_request_setfull j bt s ioc).1.nr_requests = s.nr_requests := by
  unfold get_request_setfull
  split_ifs <;> rfl

/-- If `get_request` hands out a request and the resulting outstanding count
is at or above the congestion-on threshold, the congested bit is set. -/
lemma get_request_success_congested (j bt : Nat) (emq ak : Bool)
    (s : RQState) (ioc : Option IoContext)
    (ha : (get_request j bt emq ak s ioc).allocated = true)
    (hc : queue_congestion_on_threshold s.nr_requests
        ≤ (get_request j bt emq ak s ioc).state.count) :
    (get_request j bt emq ak s ioc).state.congested = true := by
  have hnr := get_request_setfull_nr j bt s ioc
  unfold get_request at ha hc ⊢
  dsimp only at ha hc ⊢
  split_ifs at ha hc ⊢ <;> simp_all [set_queue_congested] <;> omega

/-- A fresh batcher (batch counter `32 - k`, window opened at `jiffies`)
succeeds on `n` consecutive allocations on a full queue as long as
`n + k ≤ 32` and the batch window is open. -/
lemma get_request_run_batcher (j bt : Nat) (emq : Bool) (hbt : 0 < bt) :
    ∀ n k : Nat, n + k ≤ 32 → ∀ s : RQState, s.full = true →
      get_request_run j bt emq n s
        (some { nr_batch_requests := (32 : Int) - k, last_waited := j })
        = true := by
  intro n
  induction n with
  | zero => intro k _ s _; rfl
  | succ m ih =>
    intro k hk s hfull
    have hb : ioc_batching j bt
        (some { nr_batch_requests := (32 : Int) - k, last_waited := j })
        = true := by
      simp only [ioc_batching, BLK_BATCH_REQ, Bool.or_eq_true,
        Bool.and_eq_true, decide_eq_true_eq, beq_iff_eq]
      by_cases hk0 : k = 0
      · left; simp [hk0]
      · right
        constructor
        · have : k ≤ 31 := by omega
          omega
        · omega
    obtain ⟨ha, hf, hioc⟩ := get_request_batching_facts j bt emq s _ hfull hb
    unfold get_request_run
    simp only [ha, hioc, Bool.true_and]
    have hcast : (32 : Int) - (k : Int) - 1 = (32 : Int) - ((k + 1 : Nat) : Int) := by
      push_cast
      ring
    rw [show ({ nr_batch_requests := (32 : Int) - k - 1, last_waited := j }
        : IoContext)
        = { nr_batch_requests := (32 : Int) - ((k + 1 : Nat) : Int),
            last_waited := j } from by rw [hcast]]
    exact ih (k + 1) (by omega) _ hf

end BlockLayer

/-- C3: each direction's congestion hysteresis: the on-threshold is
`nr_requests - nr_requests/8 + 1` capped at `nr_requests` and the
off-threshold is `nr_requests - nr_requests/8 - 1` floored at 1; a
successful allocation whose resulting outstanding count reaches the
on-threshold leaves the congested bit set; freeing a request that drops the
count below the off-threshold clears the bit and wakes the direction's
blocked allocators.  (`nr_requests ≥ 1` holds in the source: it is
initialised to `BLKDEV_MAX_RQ` and the sysfs store clamps it to at least
`BLKDEV_MIN_RQ`.) -/
theorem congestion_hysteresis :
    (∀ nr : Nat, 1 ≤ nr →
      BlockLayer.queue_congestion_on_threshold nr = min nr (nr - nr / 8 + 1)
      ∧ BlockLayer.queue_congestion_off_threshold nr
          = max 1 (nr - nr / 8 - 1))
    ∧ (∀ (j bt : Nat) (emq : Bool) (s : BlockLayer.RQState)
        (ioc : Option BlockLayer.IoContext),
        (BlockLayer.get_request j bt emq true s ioc).allocated = true →
        (BlockLayer.get_request j bt emq true s ioc).state.count
            ≥ BlockLayer.queue_congestion_on_threshold s.nr_requests →
        (BlockLayer.get_request j bt emq true s ioc).state.congested = true)
    ∧ (∀ s : BlockLayer.RQState, 1 ≤ s.nr_requests →
        (BlockLayer.freed_request s).state.count
            < BlockLayer.queue_congestion_off_threshold s.nr_requests →
        (BlockLayer.freed_request s).state.congested = false
        ∧ (s.waiters = true → (BlockLayer.freed_request s).woke = true)) := by
  refine ⟨?_, ?_, ?_⟩
  · intro nr h
    simp only [BlockLayer.queue_congestion_on_threshold,
      BlockLayer.queue_congestion_off_threshold]
    constructor <;> split_ifs <;> omega
  · intro j bt emq s ioc ha hc
    exact BlockLayer.get_request_success_congested j bt emq true s ioc ha hc
  · intro s h1
    unfold BlockLayer.freed_request BlockLayer.clear_queue_congested
      BlockLayer.queue_congestion_off_threshold
    dsimp only
    split_ifs <;> (try simp_all) <;> omega

namespace BlockLayer

/-- On a full queue a non-batching caller that the elevator does not exempt
is turned away. -/
lemma get_request_full_rejects (j bt : Nat) (ak : Bool) (s : RQState)
    (ioc : Option IoContext) (hfull : s.full = true)
    (hb : ioc_batching j bt ioc = false) :
    (get_request j bt false ak s ioc).allocated = false := by
  unfold get_request
  rw [get_request_setfull_of_full j bt s ioc hfull]
  simp [hfull, hb]

/-- The opening block of `get_request` leaves every accounting field
unchanged except `full`, which becomes set as soon as the queue would fill
(`count + 1 ≥ nr_requests`). -/
lemma get_request_setfull_state (j bt : Nat) (s : RQState)
    (ioc : Option IoContext) :
    (get_request_setfull j bt s ioc).1
      = { s with full := s.full || decide (s.nr_requests ≤ s.count + 1) } := by
  obtain ⟨nr, cnt, cg, fl, wt⟩ := s
  unfold get_request_setfull
  split_ifs with h1 h2
  · simp_all
  · simp_all
  · have hd : ¬(nr ≤ cnt + 1) := by
      simp only [ge_iff_le, not_le] at h1
      omega
    simp_all [decide_eq_false hd]

end BlockLayer

/-- C5: while a queue direction is marked full, `get_request` still succeeds
for a caller whose io-context is currently batching (batch counter equal to
`BLK_BATCH_REQ`, or positive within the batch time window); a fresh batcher
can allocate up to 32 consecutive requests on a full queue; and a
non-batching caller that the elevator does not exempt is rejected. -/
theorem full_queue_batching_allocation :
    (∀ (j bt : Nat) (emq : Bool) (s : BlockLayer.RQState)
        (ioc : Option BlockLayer.IoContext), s.full = true →
      BlockLayer.ioc_batching j bt ioc = true →
      (BlockLayer.get_request j bt emq true s ioc).allocated = true)
    ∧ (∀ (j bt : Nat) (ak : Bool) (s : BlockLayer.RQState)
        (ioc : Option BlockLayer.IoContext), s.full = true →
      BlockLayer.ioc_batching j bt ioc = false →
      (BlockLayer.get_request j bt false ak s ioc).allocated = false)
    ∧ (∀ (j bt n : Nat) (emq : Bool) (s : BlockLayer.RQState), 0 < bt →
      n ≤ 32 → s.full = true →
      BlockLayer.get_request_run j bt emq n s
        (some { nr_batch_requests := BlockLayer.BLK_BATCH_REQ,
                last_waited := j }) = true) := by
  refine ⟨?_, ?_, ?_⟩
  · intro j bt emq s ioc hfull hb
    match ioc with
    | none => simp [BlockLayer.ioc_batching] at hb
    | some i => exact (BlockLayer.get_request_batching_facts j bt emq s i
        hfull hb).1
  · intro j bt ak s ioc hfull hb
    exact BlockLayer.get_request_full_rejects j bt ak s ioc hfull hb
  · intro j bt n emq s hbt hn hfull
    have h := BlockLayer.get_request_run_batcher j bt emq hbt n 0
      (by omega) s hfull
    simpa [BlockLayer.BLK_BATCH_REQ] using h

/-- Witness for C5: on a concrete full queue a fresh batcher allocates 32
consecutive requests. -/
theorem full_queue_batching_allocation_witness :
    BlockLayer.get_request_run 0 20 false 32 BlockLayer.sFull
      (some { nr_batch_requests := BlockLayer.BLK_BATCH_REQ,
              last_waited := 0 }) = true :=
  full_queue_batching_allocation.2.2 0 20 32 false BlockLayer.sFull
    (by decide) (by decide) (by decide)

/-- Counterexample to C10 as stated: on a queue one step below the
congestion-on threshold (`sNearOn`: 16 requests configured, 14 outstanding,
not congested), an admitted allocation whose pool allocation fails restores
the outstanding count but leaves the congested bit SET (the transient
increment reached the on-threshold of 15 and the restore path only clears
the bit below the off-threshold of 13), so the queue state is not exactly
as before the call. -/
theorem get_request_alloc_fail_counterexample :
    BlockLayer.sNearOn.congested = false
    ∧ (BlockLayer.get_request 0 20 false false BlockLayer.sNearOn
        none).allocated = false
    ∧ (BlockLayer.get_request 0 20 false false BlockLayer.sNearOn
        none).state.count = BlockLayer.sNearOn.count
    ∧ (BlockLayer.get_request 0 20 false false BlockLayer.sNearOn
        none).state.congested = true := by
  decide

/-- C10 (amended): if the allocation is admitted past the full-queue gate
and the pool allocation then fails, the outstanding count is exactly
restored (the increment is undone through `freed_request`) before NULL is
returned, but the congestion and full bits are merely recomputed by the
freed-request path rather than restored: the congested bit ends set iff the
restored count is not below the off-threshold and (it was set before or the
transient incremented count reached the on-threshold); the full bit ends
cleared iff the restored count + 1 ≤ `nr_requests` and no allocator is
waiting, and otherwise equals its possibly transiently-set value. -/
theorem get_request_alloc_fail_accounting (j bt : Nat) (emq : Bool)
    (s : BlockLayer.RQState) (ioc : Option BlockLayer.IoContext)
    (hadm : ((BlockLayer.get_request_setfull j bt s ioc).1.full
        && !BlockLayer.ioc_batching j bt
            (BlockLayer.get_request_setfull j bt s ioc).2
        && !emq) = false) :
    (BlockLayer.get_request j bt emq false s ioc).allocated = false
    ∧ (BlockLayer.get_request j bt emq false s ioc).state.count = s.count
    ∧ (BlockLayer.get_request j bt emq false s ioc).state.congested
        = (if s.count < BlockLayer.queue_congestion_off_threshold s.nr_requests
           then false
           else s.congested
             || decide (BlockLayer.queue_congestion_on_threshold s.nr_requests
                  ≤ s.count + 1))
    ∧ (BlockLayer.get_request j bt emq false s ioc).state.full
        = (if s.count + 1 ≤ s.nr_requests
           then (if s.waiters
                 then s.full || decide (s.nr_requests ≤ s.count + 1)
                 else false)
           else s.full || decide (s.nr_requests ≤ s.count + 1)) := by
  have hp := BlockLayer.get_request_setfull_state j bt s ioc
  unfold BlockLayer.get_request
  dsimp only
  rw [hadm]
  simp only [Bool.false_eq_true, if_false]
  rw [hp]
  unfold BlockLayer.freed_request BlockLayer.set_queue_congested
    BlockLayer.clear_queue_congested
  dsimp only
  split_ifs <;> simp_all <;> omega

/-- Witness for the amended C10: at the concrete near-threshold state the
characterization evaluates to count restored and congested bit set. -/
theorem get_request_alloc_fail_accounting_witness :
    (BlockLayer.get_request 0 20 false false BlockLayer.sNearOn
        none).state.count = BlockLayer.sNearOn.count
    ∧ (BlockLayer.get_request 0 20 false false BlockLayer.sNearOn
        none).state.congested
        = (if BlockLayer.sNearOn.count
              < BlockLayer.queue_congestion_off_threshold
                  BlockLayer.sNearOn.nr_requests
           then false
           else BlockLayer.sNearOn.congested
             || decide (BlockLayer.queue_congestion_on_threshold
                  BlockLayer.sNearOn.nr_requests
                  ≤ BlockLayer.sNearOn.count + 1)) := by
  have h := get_request_alloc_fail_accounting 0 20 false BlockLayer.sNearOn
    none (by decide)
  exact ⟨h.2.1, h.2.2.1⟩

namespace BlockLayer

/-- Unfolding of `chunk32` on a nonempty bitmap. -/
lemma chunk32_ne_nil (l : List Bool) (h : l ≠ []) :
    chunk32 l = l.take 32 :: chunk32 (l.drop 32) := by
  match l with
  | [] => exact absurd rfl h
  | a :: as => rw [chunk32]

/-- `ffz` of a word whose first zero bit sits at position `k`. -/
lemma ffz_replicate (k : Nat) (l : List Bool) :
    ffz (List.replicate k true ++ false :: l) = k := by
  induction k with
  | zero =>
    simp [ffz, List.findIdx_cons]
  | succ n ih =>
    rw [List.replicate_succ]
    simp only [List.cons_append, ffz, List.findIdx_cons] at *
    simp [ih]

/-- A word of ones passes the `*map == -1UL` test. -/
lemma all_replicate_true (n : Nat) :
    (List.replicate n true).all (fun b => b) = true := by
  simp

/-- The word scan finds the first clear bit: on a bitmap consisting of `k`
ones followed by a zero, it returns `base + k` whenever that index is below
the depth. -/
lemma tag_scan_finds (maxd : Nat) :
    ∀ (k : Nat) (tl : List Bool) (base : Nat), base + k < maxd →
      tag_scan maxd base (chunk32 (List.replicate k true ++ false :: tl))
        = some (base + k) := by
  intro k
  induction k using Nat.strong_induction_on with
  | _ k ih =>
    intro tl base hb
    have hne : (List.replicate k true ++ false :: tl) ≠ [] := by simp
    rw [chunk32_ne_nil _ hne]
    by_cases h32 : k < 32
    · have htake : (List.replicate k true ++ false :: tl).take 32
          = List.replicate k true ++ false :: tl.take (31 - k) := by
        rw [List.take_append_eq_append_take]
        congr 1
        · simp [List.take_replicate, Nat.min_eq_right (Nat.le_of_lt h32)]
        · simp only [List.length_replicate]
          rw [show 32 - k = (31 - k) + 1 from by omega,
            List.take_succ_cons]
      rw [tag_scan, htake]
      have hall : (List.replicate k true ++ false :: tl.take (31 - k)).all
          (fun b => b) = false := by simp
      rw [hall]
      simp [ffz_replicate]
    · have h32' : 32 ≤ k := Nat.le_of_not_lt h32
      have htake : (List.replicate k true ++ false :: tl).take 32
          = List.replicate 32 true := by
        rw [List.take_append_eq_append_take]
        simp [List.take_replicate, Nat.min_eq_left h32',
          Nat.sub_eq_zero_of_le h32']
      have hdrop : (List.replicate k true ++ false :: tl).drop 32
          = List.replicate (k - 32) true ++ false :: tl := by
        rw [List.drop_append_eq_append_drop]
        simp [List.drop_replicate, Nat.sub_eq_zero_of_le h32']
      rw [tag_scan, htake, hdrop]
      rw [all_replicate_true]
      have hge : ¬(base + 32 ≥ maxd) := by omega
      simp only [if_true, hge, if_false]
      have := ih (k - 32) (by omega) tl (base + 32) (by omega)
      rw [this, show base + 32 + (k - 32) = base + k from by omega]

end BlockLayer

namespace BlockLayer

/-- Setting the element right after a prefix of known length. -/
lemma set_at_len {α : Type} (l1 l2 : List α) (a v : α) (k : Nat)
    (h : l1.length = k) : (l1 ++ a :: l2).set k v = l1 ++ v :: l2 := by
  subst h
  simp [List.set_append]

/-- Reading inside a leading `replicate` block. -/
lemma getD_replicate_append (k n : Nat) (b : Bool) (X : List Bool)
    (h : k < n) : (List.replicate n b ++ X).getD k false = b := by
  rw [List.getD_append _ _ _ _ (by simpa using h)]
  simp [List.getElem?_replicate, h]

/-- Peeling the last element off a reversed `range`. -/
lemma reverse_range_succ (k : Nat) :
    (List.range (k+1)).reverse = k :: (List.range k).reverse := by
  rw [List.range_succ]
  simp

/-- A `replicate` of ones absorbs a cons. -/
lemma replicate_true_cons (k : Nat) (X : List Bool) :
    List.replicate (k+1) true ++ X = List.replicate k true ++ (true :: X) := by
  rw [List.replicate_succ']
  simp

/-- Requests tagged below `k` survive a filter removing identity `k`. -/
lemma filter_tagged_ne (k : Nat) :
    (((List.range k).reverse).map taggedTagReq).filter (fun r => r.id != k)
      = ((List.range k).reverse).map taggedTagReq := by
  apply List.filter_eq_self.mpr
  intro r hr
  simp only [List.mem_map, List.mem_reverse, List.mem_range] at hr
  obtain ⟨j, hj, rfl⟩ := hr
  simp [taggedTagReq]
  omega

/-- A block of equal elements commutes past one more of the same element. -/
lemma replicate_cons_comm (k : Nat) (b : Bool) (X : List Bool) :
    List.replicate k b ++ b :: X = b :: (List.replicate k b ++ X) := by
  induction k with
  | zero => rfl
  | succ n ih => simp [List.replicate_succ, ih]

/-- Starting a tag on the table in state `k` hands out tag `k` and moves the
table to state `k + 1`. -/
lemma start_tag_mid (d k : Nat) (hk : k < d) :
    blk_queue_start_tag (midTagState d k) (freshTagReq k)
      = .ok k (midTagState d (k+1)) (taggedTagReq k) := by
  obtain ⟨m, hm⟩ : ∃ m, d - k = m + 1 := ⟨d - k - 1, by omega⟩
  have hm2 : d - (k+1) = m := by omega
  have hpadmap : (midTagState d k).tag_map
      = List.replicate k true ++ false ::
        (List.replicate m false
          ++ List.replicate ((d / 32 + 1) * 32 - d) true) := by
    simp only [midTagState]
    rw [hm, List.replicate_succ]
    simp
  have hscan : tag_scan (midTagState d k).max_depth 0
      (chunk32 (midTagState d k).tag_map) = some k := by
    rw [hpadmap]
    have hd : (midTagState d k).max_depth = d := rfl
    rw [hd]
    have := tag_scan_finds d k
      (List.replicate m false ++ List.replicate ((d / 32 + 1) * 32 - d) true)
      0 (by omega)
    simpa using this
  unfold blk_queue_start_tag
  rw [show (freshTagReq k).queued = false from rfl]
  simp only [Bool.false_eq_true, if_false, hscan]
  simp only [midTagState, freshTagReq, taggedTagReq,
    StartTagResult.ok.injEq, TagState.mk.injEq, TagReq.mk.injEq,
    hm, hm2, List.replicate_succ, List.cons_append, List.range_succ,
    List.map_append, List.map_cons, List.map_nil, List.reverse_append,
    List.reverse_cons, List.reverse_nil, List.nil_append,
    List.append_assoc, List.singleton_append]
  refine ⟨trivial, ⟨?_, ?_, trivial, trivial, trivial⟩, trivial⟩
  · rw [set_at_len _ _ _ _ _ (by simp), replicate_cons_comm]
  · rw [set_at_len _ _ _ _ _ (by simp)]

/-- Ending tag `k` on the table in state `k + 1` returns it to state `k`
and strips the request's tag and `REQ_QUEUED` flag. -/
lemma end_tag_mid (d k : Nat) (hk : k < d) :
    blk_queue_end_tag (midTagState d (k+1)) (taggedTagReq k)
      = .res (midTagState d k) (freshTagReq k) := by
  obtain ⟨m, hm⟩ : ∃ m, d - k = m + 1 := ⟨d - k - 1, by omega⟩
  have hm2 : d - (k+1) = m := by omega
  unfold blk_queue_end_tag
  rw [show (taggedTagReq k).tag = some k from rfl]
  unfold end_tag_core
  dsimp only
  have hlen : (midTagState d (k+1)).tag_map.length = (d / 32 + 1) * 32 := by
    simp only [midTagState]
    simp [hm2]
    omega
  rw [if_neg (by rw [hlen]; omega)]
  have hget : (midTagState d (k+1)).tag_map.getD k false = true := by
    simp only [midTagState, List.append_assoc]
    exact getD_replicate_append k (k+1) true
      (List.replicate (d - (k+1)) false
        ++ List.replicate ((d / 32 + 1) * 32 - d) true) (by omega)
  have hne : ¬((midTagState d (k+1)).tag_map.getD k false = false) := by
    rw [hget]
    simp
  rw [if_neg hne]
  simp only [midTagState, freshTagReq, taggedTagReq,
    EndTagResult.res.injEq, TagState.mk.injEq, TagReq.mk.injEq,
    hm, hm2, List.range_succ, List.map_append, List.map_cons, List.map_nil,
    List.reverse_append, List.reverse_cons, List.reverse_nil,
    List.nil_append, List.append_assoc, List.singleton_append]
  refine ⟨⟨?_, ?_, by omega, trivial, ?_⟩, trivial⟩
  · rw [replicate_true_cons, set_at_len _ _ _ _ _ (by simp),
      List.replicate_succ, List.cons_append]
  · rw [set_at_len _ _ _ _ _ (by simp), List.replicate_succ]
  · simp [List.filter_cons, filter_tagged_ne]
    intro a ha
    simp [taggedTagReq]
    omega

/-- The freshly initialised table is the state with zero tags started. -/
lemma midTagState_zero (d : Nat) : midTagState d 0 = init_tag_map d := by
  simp [midTagState, init_tag_map]

/-- Starting tags for requests `k, k+1, ..., k+n-1` in order hands out the
tags `k, ..., k+n-1` and leaves the table in state `k + n`. -/
lemma start_tags_mid (d : Nat) :
    ∀ (n k : Nat), k + n ≤ d →
      start_tags (midTagState d k) ((List.range' k n).map freshTagReq)
        = (midTagState d (k + n), (List.range' k n).map (fun j => some j)) := by
  intro n
  induction n with
  | zero =>
    intro k hk
    simp [start_tags, List.range']
  | succ p ih =>
    intro k hk
    rw [List.range'_succ]
    simp only [List.map_cons]
    simp only [start_tags]
    rw [start_tag_mid d k (by omega)]
    dsimp only
    rw [ih (k + 1) (by omega)]
    rw [show k + 1 + p = k + (p + 1) from by omega]

/-- Ending tags `k-1, ..., 0` in that order returns the table to its initial
state. -/
lemma end_tags_mid (d : Nat) :
    ∀ k, k ≤ d →
      end_tags (midTagState d k) (((List.range k).reverse).map taggedTagReq)
        = midTagState d 0 := by
  intro k
  induction k with
  | zero =>
    intro _
    simp [end_tags]
  | succ p ih =>
    intro hk
    rw [reverse_range_succ]
    simp only [List.map_cons]
    simp only [end_tags]
    rw [end_tag_mid d p (by omega)]
    dsimp only
    exact ih (by omega)

/-- The invalidate walk over the busy list of state `k` ends every tag and
accumulates the stripped requests `k-1, ..., 0` behind `acc`. -/
lemma invalidate_aux_mid (d : Nat) :
    ∀ k (acc : List TagReq), k ≤ d →
      blk_queue_invalidate_tags_aux (midTagState d k)
          (((List.range k).reverse).map taggedTagReq) acc
        = (midTagState d 0,
           acc ++ ((List.range k).reverse).map freshTagReq) := by
  intro k
  induction k with
  | zero =>
    intro acc _
    simp [blk_queue_invalidate_tags_aux]
  | succ p ih =>
    intro acc hk
    rw [reverse_range_succ]
    simp only [List.map_cons]
    simp only [blk_queue_invalidate_tags_aux]
    have hstep : invalidate_step (midTagState d (p+1)) (taggedTagReq p)
        = (midTagState d p, freshTagReq p) := by
      have h := end_tag_mid d p (by omega)
      unfold blk_queue_end_tag at h
      rw [show (taggedTagReq p).tag = some p from rfl] at h
      dsimp only at h
      simp only [EndTagResult.res.injEq] at h
      unfold invalidate_step
      rw [show (taggedTagReq p).tag = some p from rfl]
      dsimp only
      exact Prod.ext h.1 h.2
    rw [hstep]
    dsimp only
    rw [show ({ freshTagReq p with started := false } : TagReq)
        = freshTagReq p from rfl]
    rw [ih (acc ++ [freshTagReq p]) (by omega)]
    simp

end BlockLayer

/-- C4: on a table whose usable bitmap is all-clear, starting `N ≤ depth`
tags yields the `N` pairwise-distinct ids `0, ..., N-1`; ending all `N` tags
restores the table — bitmap, index, busy count and busy list — to its
initial state; invalidating instead reinserts each previously tagged request
through the elevator path exactly once (the reinserted list carries each id
once), with its tag ended (`tag = none`, `REQ_QUEUED` clear) and its
`REQ_STARTED` flag cleared, and likewise restores the initial table. -/
theorem tag_round_trip (d N : Nat) (hN : N ≤ d) :
    (BlockLayer.start_tags (BlockLayer.init_tag_map d)
        ((List.range N).map BlockLayer.freshTagReq)).2
      = (List.range N).map (fun j => some j)
    ∧ (List.range N).Nodup
    ∧ BlockLayer.end_tags
        (BlockLayer.start_tags (BlockLayer.init_tag_map d)
          ((List.range N).map BlockLayer.freshTagReq)).1
        (((List.range N).reverse).map BlockLayer.taggedTagReq)
      = BlockLayer.init_tag_map d
    ∧ (BlockLayer.blk_queue_invalidate_tags
        (BlockLayer.start_tags (BlockLayer.init_tag_map d)
          ((List.range N).map BlockLayer.freshTagReq)).1).1
      = BlockLayer.init_tag_map d
    ∧ (BlockLayer.blk_queue_invalidate_tags
        (BlockLayer.start_tags (BlockLayer.init_tag_map d)
          ((List.range N).map BlockLayer.freshTagReq)).1).2
      = ((List.range N).reverse).map BlockLayer.freshTagReq := by
  have hz := BlockLayer.midTagState_zero d
  have hs : BlockLayer.start_tags (BlockLayer.init_tag_map d)
      ((List.range N).map BlockLayer.freshTagReq)
      = (BlockLayer.midTagState d N, (List.range N).map (fun j => some j)) := by
    have h := BlockLayer.start_tags_mid d N 0 (by omega)
    rw [hz] at h
    rw [List.range_eq_range' N]
    simpa using h
  have hinv : BlockLayer.blk_queue_invalidate_tags (BlockLayer.midTagState d N)
      = (BlockLayer.midTagState d 0,
         ((List.range N).reverse).map BlockLayer.freshTagReq) := by
    unfold BlockLayer.blk_queue_invalidate_tags
    have hbl : (BlockLayer.midTagState d N).busy_list
        = ((List.range N).reverse).map BlockLayer.taggedTagReq := rfl
    rw [hbl]
    simpa using BlockLayer.invalidate_aux_mid d N [] hN
  refine ⟨?_, List.nodup_range N, ?_, ?_, ?_⟩
  · rw [hs]
  · rw [hs]
    exact (BlockLayer.end_tags_mid d N hN).trans hz
  · rw [hs, hinv, hz]
  · rw [hs, hinv]

/-- Witness for C4: on a depth-4 table, starting three tags yields tags
0, 1, 2 and invalidating restores the initial table. -/
theorem tag_round_trip_witness :
    (BlockLayer.start_tags (BlockLayer.init_tag_map 4)
        ((List.range 3).map BlockLayer.freshTagReq)).2
      = (List.range 3).map (fun j => some j)
    ∧ (BlockLayer.blk_queue_invalidate_tags
        (BlockLayer.start_tags (BlockLayer.init_tag_map 4)
          ((List.range 3).map BlockLayer.freshTagReq)).1).1
      = BlockLayer.init_tag_map 4 := by
  have h := tag_round_trip 4 3 (by decide)
  exact ⟨h.1, h.2.2.2.1⟩

/-- C9: double-tagging a request (`blk_queue_start_tag` on a request with
`REQ_QUEUED` set) hits `BUG()`; ending a tag on a request that owns none
(`rq->tag == -1`) hits `BUG_ON`; a request whose reference count reaches
zero while its `queuelist` node is still linked (and it belongs to a request
list) hits `BUG_ON` in `__blk_put_request` — all fatal programming-error
paths, not recoverable returns. -/
theorem fatal_consistency_violations :
    (∀ (s : BlockLayer.TagState) (rq : BlockLayer.TagReq), rq.queued = true →
      BlockLayer.blk_queue_start_tag s rq = .fatal)
    ∧ (∀ (s : BlockLayer.TagState) (rq : BlockLayer.TagReq), rq.tag = none →
      BlockLayer.blk_queue_end_tag s rq = .fatal)
    ∧ (∀ rq : BlockLayer.PutReq, rq.ref_count = 1 → rq.has_rl = true →
      rq.queuelist_empty = false →
      BlockLayer.__blk_put_request true rq = .fatal) := by
  refine ⟨?_, ?_, ?_⟩
  · intro s rq h
    unfold BlockLayer.blk_queue_start_tag
    rw [h]
    rfl
  · intro s rq h
    unfold BlockLayer.blk_queue_end_tag
    rw [h]
  · intro rq h1 h2 h3
    unfold BlockLayer.__blk_put_request
    rw [h1, h2, h3]
    norm_num

/-- Witness for C9: concrete instances of each fatal condition. -/
theorem fatal_consistency_violations_witness :
    BlockLayer.blk_queue_start_tag (BlockLayer.init_tag_map 4)
        { id := 0, tag := some 1, queued := true, started := true } = .fatal
    ∧ BlockLayer.blk_queue_end_tag (BlockLayer.init_tag_map 4)
        { id := 0, tag := none, queued := false, started := false } = .fatal
    ∧ BlockLayer.__blk_put_request true
        { ref_count := 1, has_rl := true, queuelist_empty := false }
        = .fatal := by
  refine ⟨?_, ?_, ?_⟩
  · exact fatal_consistency_violations.1 (BlockLayer.init_tag_map 4) _ rfl
  · exact fatal_consistency_violations.2.1 (BlockLayer.init_tag_map 4) _ rfl
  · exact fatal_consistency_violations.2.2 _ rfl rfl rfl

/-- Witness for C3: at `nr_requests = 16` the thresholds evaluate as stated,
and freeing a request at count 13 (with a waiter) drops to 12 < 13, clears
the congested bit and wakes the blocked allocator. -/
theorem congestion_hysteresis_witness :
    BlockLayer.queue_congestion_on_threshold 16 = min 16 (16 - 16 / 8 + 1)
    ∧ (BlockLayer.freed_request
        { nr_requests := 16, count := 13, congested := true, full := false,
          waiters := true }).state.congested = false
    ∧ (BlockLayer.freed_request
        { nr_requests := 16, count := 13, congested := true, full := false,
          waiters := true }).woke = true := by
  have h := congestion_hysteresis
  have h1 := (h.1 16 (by decide)).1
  have h3 := h.2.2
    { nr_requests := 16, count := 13, congested := true, full := false,
      waiters := true } (by decide) (by decide)
  exact ⟨h1, h3.1, h3.2 rfl⟩

/-- Counterexample to C7 as stated: `mark_buffer_dirty` on a clean,
non-uptodate buffer flags the checked error but still sets the Dirty bit,
so the Dirty bit is not "only ever set while Uptodate is set". -/
theorem mark_buffer_dirty_counterexample :
    ({ id := 0, dirty := false, locked := false, uptodate := false,
       write_io_error := false, io_results := [] } : BufferCache.BH).uptodate
      = false
    ∧ (BufferCache.mark_buffer_dirty
        { id := 0, dirty := false, locked := false, uptodate := false,
          write_io_error := false, io_results := [] }).1.dirty = true
    ∧ (BufferCache.mark_buffer_dirty
        { id := 0, dirty := false, locked := false, uptodate := false,
          write_io_error := false, io_results := [] }).2.1 = true := by
  decide

/-- C7 (amended): through the page path (`__set_page_dirty_buffers`) the
Dirty bit is set only on buffers whose Uptodate bit is set — non-uptodate
buffers trigger the checked `buffer_error()` and are left untouched;
`mark_buffer_dirty` flags the checked error on a non-uptodate buffer but
sets Dirty regardless; dirtying an already-dirty buffer — locked or not —
is a complete no-op on the buffer's bits (in particular the Dirty bit stays
set and the Locked bit is never cleared), and neither path ever touches the
Locked bit. -/
theorem buffer_dirty_bit_rules :
    (∀ ring : List BufferCache.BH,
      (BufferCache.__set_page_dirty_buffers ring).1
        = ring.map (fun b => if b.uptodate then { b with dirty := true }
            else b))
    ∧ (∀ b : BufferCache.BH,
        (BufferCache.mark_buffer_dirty b).1.dirty = true
        ∧ (BufferCache.mark_buffer_dirty b).1.locked = b.locked
        ∧ ((BufferCache.mark_buffer_dirty b).2.1 = true ↔ b.uptodate = false))
    ∧ (∀ b : BufferCache.BH, b.dirty = true →
        BufferCache.mark_buffer_dirty b = (b, !b.uptodate, false)) := by
  refine ⟨?_, ?_, ?_⟩
  · intro ring
    induction ring with
    | nil => rfl
    | cons b rest ih =>
      unfold BufferCache.__set_page_dirty_buffers
      dsimp only
      split_ifs with h <;> simp_all
  · intro b
    unfold BufferCache.mark_buffer_dirty BufferCache.test_set_buffer_dirty
    split_ifs with h <;> simp_all
  · intro b h
    unfold BufferCache.mark_buffer_dirty
    rw [if_pos h]

/-- Witness for the amended C7: dirtying an already-dirty-and-locked buffer
returns it bit-for-bit unchanged (Locked kept) and raises no error. -/
theorem buffer_dirty_bit_rules_witness :
    BufferCache.mark_buffer_dirty
        { id := 1, dirty := true, locked := true, uptodate := true,
          write_io_error := false, io_results := [] }
      = ({ id := 1, dirty := true, locked := true, uptodate := true,
           write_io_error := false, io_results := [] }, false, false) := by
  have h := buffer_dirty_bit_rules.2.2
    { id := 1, dirty := true, locked := true, uptodate := true,
      write_io_error := false, io_results := [] } rfl
  simpa using h

namespace BufferCache

/-- The uptodate state a processed (dirty-or-locked) list entry has after
its phase-2 wait equals the oracle outcome `entry_write_ok`. -/
lemma fsync_processed_uptodate (b : BH) (h : (b.dirty || b.locked) = true) :
    (wait_on_buffer
        (if b.dirty = true then ll_rw_block_write (wait_on_buffer b) else b)
      ).uptodate = entry_write_ok b := by
  unfold wait_on_buffer ll_rw_block_write entry_write_ok
  split_ifs <;> simp_all

/-- A dirty entry ends clean and unlocked, with its identity intact. -/
lemma fsync_processed_dirty (b : BH) (h : b.dirty = true) :
    (wait_on_buffer
        (if b.dirty = true then ll_rw_block_write (wait_on_buffer b) else b)
      ).dirty = false
    ∧ (wait_on_buffer
        (if b.dirty = true then ll_rw_block_write (wait_on_buffer b) else b)
      ).locked = false
    ∧ (wait_on_buffer
        (if b.dirty = true then ll_rw_block_write (wait_on_buffer b) else b)
      ).id = b.id := by
  rw [if_pos h]
  unfold wait_on_buffer ll_rw_block_write
  split_ifs <;> simp_all

/-- Behaviour of the two-phase pipeline: the phase-2 error flag is clear
exactly when every entry's observed completion succeeded, and every
dirty-at-entry buffer reappears clean and unlocked in the final list. -/
lemma fsync_phases (l : List BH) :
    ((fsync_phase2 (fsync_phase1 l)).2 = false
      ↔ ∀ b ∈ l, entry_write_ok b = true)
    ∧ (∀ b ∈ l, b.dirty = true →
        ∃ b2 ∈ (fsync_phase2 (fsync_phase1 l)).1,
          b2.id = b.id ∧ b2.dirty = false ∧ b2.locked = false) := by
  induction l with
  | nil => simp [fsync_phase1, fsync_phase2]
  | cons b rest ih =>
    unfold fsync_phase1
    by_cases h : (b.dirty || b.locked) = true
    · rw [if_pos h]
      unfold fsync_phase2
      dsimp only
      constructor
      · rw [Bool.or_eq_false_iff, Bool.not_eq_false']
        rw [fsync_processed_uptodate b h, ih.1]
        simp
      · intro b' hb' hd
        rcases List.mem_cons.mp hb' with rfl | hmem
        · refine ⟨_, List.mem_cons_self _ _, ?_⟩
          obtain ⟨h1, h2, h3⟩ := fsync_processed_dirty b' hd
          exact ⟨h3, h1, h2⟩
        · obtain ⟨b2, hb2, hprops⟩ := ih.2 b' hmem hd
          exact ⟨b2, List.mem_cons_of_mem _ hb2, hprops⟩
    · rw [if_neg h]
      have hdl : b.dirty = false ∧ b.locked = false := by
        constructor <;> revert h <;> cases b.dirty <;> cases b.locked <;> simp
      have hok : entry_write_ok b = true := by
        unfold entry_write_ok
        simp [hdl.1, hdl.2]
      constructor
      · rw [ih.1]
        constructor
        · intro hall b' hb'
          rcases List.mem_cons.mp hb' with rfl | hmem
          · exact hok
          · exact hall b' hmem
        · intro hall b' hb'
          exact hall b' (List.mem_cons_of_mem _ hb')
      · intro b' hb' hd
        rcases List.mem_cons.mp hb' with rfl | hmem
        · rw [hdl.1] at hd
          exact absurd hd (by simp)
        · exact ih.2 b' hmem hd

end BufferCache

/-- Counterexample to C6 as stated: a list whose single buffer is clean but
locked at entry (an in-flight write of older contents) whose I/O fails makes
`fsync_buffers_list` return `-EIO`, although no buffer that was dirty on the
list at entry observed an error — so the call's error result is not limited
to the dirty-at-entry buffers. -/
theorem fsync_error_scope_counterexample :
    ({ id := 0, dirty := false, locked := true, uptodate := true,
       write_io_error := false, io_results := [false] } : BufferCache.BH).dirty
      = false
    ∧ (BufferCache.fsync_buffers_list
        [{ id := 0, dirty := false, locked := true, uptodate := true,
           write_io_error := false, io_results := [false] }]).2
      = -BufferCache.eio_code := by
  decide

/-- C6 (amended): after `fsync_buffers_list` returns, every buffer that was
dirty on the list at entry (no concurrent re-dirtying exists in this
sequential model) is clean and not locked; the call returns 0 iff the final
completion observed for every dirty-or-locked entry succeeded, and `-EIO`
otherwise — an I/O failure of a buffer that was merely locked (not dirty)
at entry also surfaces as `-EIO`, and all failures collapse to the single
value `-EIO`, which equals the first error observed. -/
theorem fsync_drain (l : List BufferCache.BH) :
    (∀ b ∈ l, b.dirty = true →
      ∃ b2 ∈ (BufferCache.fsync_buffers_list l).1,
        b2.id = b.id ∧ b2.dirty = false ∧ b2.locked = false)
    ∧ ((BufferCache.fsync_buffers_list l).2 = 0
        ↔ ∀ b ∈ l, BufferCache.entry_write_ok b = true)
    ∧ ((BufferCache.fsync_buffers_list l).2 = 0
        ∨ (BufferCache.fsync_buffers_list l).2 = -BufferCache.eio_code) := by
  have hp := BufferCache.fsync_phases l
  unfold BufferCache.fsync_buffers_list
  dsimp only
  refine ⟨hp.2, ?_, ?_⟩
  · rw [show BufferCache.osync_buffers_list [] = false from rfl]
    rw [← hp.1]
    cases hflag : (BufferCache.fsync_phase2 (BufferCache.fsync_phase1 l)).2 <;>
      simp [BufferCache.eio_code]
  · cases hflag : (BufferCache.fsync_phase2 (BufferCache.fsync_phase1 l)).2 <;>
      simp [BufferCache.eio_code]

/-- Witness for the amended C6: a single dirty buffer whose write succeeds
comes back clean and unlocked and the call reports success. -/
theorem fsync_drain_witness :
    (∃ b2 ∈ (BufferCache.fsync_buffers_list
        [{ id := 7, dirty := true, locked := false, uptodate := true,
           write_io_error := false, io_results := [true] }]).1,
      b2.id = 7 ∧ b2.dirty = false ∧ b2.locked = false)
    ∧ (BufferCache.fsync_buffers_list
        [{ id := 7, dirty := true, locked := false, uptodate := true,
           write_io_error := false, io_results := [true] }]).2 = 0 := by
  have h := fsync_drain
    [{ id := 7, dirty := true, locked := false, uptodate := true,
       write_io_error := false, io_results := [true] }]
  refine ⟨?_, ?_⟩
  · have := h.1 _ (List.mem_singleton_self _) rfl
    simpa using this
  · exact h.2.1.mpr (by decide)

namespace BufferCache

/-- `lru_extract` removes exactly the first matching slot: if slot `i` holds
the first match, the result is that buffer together with the array minus
slot `i`. -/
lemma lru_extract_at (bdev block size : Nat) :
    ∀ (l : List (Option BhRef)) (i : Nat) (b : BhRef),
      (∀ j e, j < i → l.get? j = some e → lru_match bdev block size e = false) →
      l.get? i = some (some b) →
      lru_match bdev block size (some b) = true →
      lru_extract bdev block size l = some (b, l.eraseIdx i) := by
  intro l
  induction l with
  | nil => intro i b _ hi _; simp at hi
  | cons e rest ih =>
    intro i b hbefore hi hmatch
    match i with
    | 0 =>
      simp only [List.get?_cons_zero, Option.some.injEq] at hi
      subst hi
      unfold lru_extract
      rw [if_pos hmatch]
      rfl
    | j + 1 =>
      have he : lru_match bdev block size e = false :=
        hbefore 0 e (by omega) rfl
      unfold lru_extract
      rw [if_neg (by simp [he])]
      rw [ih j b (fun j2 e2 hj2 hg => hbefore (j2 + 1) e2 (by omega) hg)
        (by simpa using hi) hmatch]
      rfl

/-- The copy loop on an array with no occurrence of the installed buffer
keeps the first `8 - out` entries, evicts the rest, and releases nothing. -/
lemma install_scan_no_dup (b : BhRef) :
    ∀ (l : List (Option BhRef)) (out : Nat), (∀ e ∈ l, e ≠ some b) →
      install_scan b l out
        = (l.take (8 - out), l.drop (8 - out), []) := by
  intro l
  induction l with
  | nil => intro out _; simp [install_scan]
  | cons e rest ih =>
    intro out hnd
    have he : ¬(e = some b) := hnd e (List.mem_cons_self _ _)
    unfold install_scan
    rw [if_neg he]
    by_cases hout : out ≥ 8
    · rw [if_pos hout]
      rw [ih out (fun x hx => hnd x (List.mem_cons_of_mem _ hx))]
      have h0 : 8 - out = 0 := by omega
      simp [h0]
    · rw [if_neg hout]
      rw [ih (out + 1) (fun x hx => hnd x (List.mem_cons_of_mem _ hx))]
      have h1 : 8 - out = (8 - (out + 1)) + 1 := by omega
      rw [h1]
      simp

end BufferCache

/-- C8: in the 8-slot per-CPU LRU, (1) a lookup hit at slot `i` (the first
matching slot) returns that buffer and promotes it to slot 0, shifting the
intervening entries down one position each (`bh :: l.eraseIdx i`); (2)
installing a buffer not present into a full array puts it at slot 0, keeps
the first 7 entries, evicts exactly the tail entry — whose reference is the
one dropped — and releases no other reference; (3) a miss falls back to the
authoritative lookup and returns exactly what a direct authoritative lookup
returns. -/
theorem per_cpu_lru_behaviour :
    (∀ (bdev block size : Nat) (l : List (Option BufferCache.BhRef))
        (i : Nat) (b : BufferCache.BhRef),
      (∀ j e, j < i → l.get? j = some e →
        BufferCache.lru_match bdev block size e = false) →
      l.get? i = some (some b) →
      BufferCache.lru_match bdev block size (some b) = true →
      BufferCache.lookup_bh_lru bdev block size l
        = (some b, some b :: l.eraseIdx i))
    ∧ (∀ (b : BufferCache.BhRef) (l : List (Option BufferCache.BhRef)),
      l.length = 8 → (∀ e ∈ l, e ≠ some b) →
      BufferCache.bh_lru_install b l
        = (some b :: l.take 7, l.drop 7, []))
    ∧ (∀ (slow : Nat → Nat → Nat → Option BufferCache.BhRef)
        (bdev block size : Nat) (l : List (Option BufferCache.BhRef)),
      (BufferCache.lookup_bh_lru bdev block size l).1 = none →
      (BufferCache.__find_get_block slow bdev block size l).1
        = slow bdev block size) := by
  refine ⟨?_, ?_, ?_⟩
  · intro bdev block size l i b hbefore hi hmatch
    unfold BufferCache.lookup_bh_lru
    rw [BufferCache.lru_extract_at bdev block size l i b hbefore hi hmatch]
  · intro b l hlen hnd
    unfold BufferCache.bh_lru_install
    have hhead : ¬(l.headD none = some b) := by
      match l, hlen with
      | e :: rest, _ => exact hnd e (List.mem_cons_self _ _)
    rw [if_neg hhead]
    rw [BufferCache.install_scan_no_dup b l 1 hnd]
    dsimp only
    have h7 : (some b :: l.take (8 - 1)).length = 8 := by
      simp [List.length_take, hlen]
    rw [h7]
    simp
  · intro slow bdev block size l hmiss
    unfold BufferCache.__find_get_block
    unfold BufferCache.lookup_bh_lru at hmiss ⊢
    match hext : BufferCache.lru_extract bdev block size l with
    | none =>
      dsimp only
      match hslow : slow bdev block size with
      | none => simp [hslow]
      | some bh => simp [hslow]
    | some (bh, rest) =>
      rw [hext] at hmiss
      simp at hmiss

/-- Witness for C8: on a concrete full LRU a hit on the third slot promotes
it, and installing a new buffer evicts the tail. -/
theorem per_cpu_lru_behaviour_witness :
    BufferCache.lookup_bh_lru 1 30 512
        [some { id := 10, bdev := 1, block := 10, size := 512 },
         some { id := 20, bdev := 1, block := 20, size := 512 },
         some { id := 30, bdev := 1, block := 30, size := 512 },
         none, none, none, none, none]
      = (some { id := 30, bdev := 1, block := 30, size := 512 },
         [some { id := 30, bdev := 1, block := 30, size := 512 },
          some { id := 10, bdev := 1, block := 10, size := 512 },
          some { id := 20, bdev := 1, block := 20, size := 512 },
          none, none, none, none, none]) := by
  have h := per_cpu_lru_behaviour.1 1 30 512
    [some { id := 10, bdev := 1, block := 10, size := 512 },
     some { id := 20, bdev := 1, block := 20, size := 512 },
     some { id := 30, bdev := 1, block := 30, size := 512 },
     none, none, none, none, none] 2
    { id := 30, bdev := 1, block := 30, size := 512 }
    (by
      intro j e hj hg
      match j, hj with
      | 0, _ =>
        simp only [List.get?_cons_zero, Option.some.injEq] at hg
        subst hg
        decide
      | 1, _ =>
        simp only [List.get?_cons_succ, List.get?_cons_zero,
          Option.some.injEq] at hg
        subst hg
        decide)
    (by decide) (by decide)
  simpa using h
